import Mathlib

/-! Shallow embedding of the jvm-find crate (src/lib.rs).

The crate locates a Java installation's home directory via the JAVA_HOME
environment variable, filesystem metadata queries and (as a fallback) the
output of a spawned `java -XshowSettings:properties -version` process, and then
derives sub-paths of the home directory (JNI include directories, the platform
native library, arbitrary files/folders) with escaped recursive glob searches.

Effects are modelled with an explicit `World` record: the value of the
environment variable, the filesystem metadata view, the outcome of launching
the `java` process, and the list of filesystem entries visited by the glob
search engine (in the engine's traversal order).  The glob engine itself
(escaping, pattern tokenization, component matching, the trailing-slash
directory restriction) is translated from the `glob` crate as the code uses it.
-/

set_option linter.unusedVariables false

/-- Kind of an `std::io::Error`; the code only ever distinguishes `NotFound`
from every other kind. -/
inductive ErrorKind where
  | notFound
  | permissionDenied
  | other
deriving DecidableEq, Repr

/-- An `std::io::Error`: its kind plus an opaque payload distinguishing
distinct errors of the same kind. -/
structure IoError where
  kind : ErrorKind
  code : Nat
deriving DecidableEq, Repr

/-- The slice of `std::fs::Metadata` the code inspects (`meta.is_dir()`). -/
structure MetaData where
  is_dir : Bool
deriving DecidableEq, Repr

/-- An OS path / OS string.  Rust `PathBuf`/`OsString` values need not be valid
UTF-8; a non-UTF-8 value is represented abstractly by an identifier, since the
code never looks inside one (its `to_str()` simply fails). -/
inductive OsPath where
  | utf8 (s : String)
  | nonUtf8 (id : Nat)
deriving DecidableEq, Repr

/-- Rust `Path::to_str()`: the path as a UTF-8 string, when representable. -/
def OsPath.to_str : OsPath → Option String
  | .utf8 s => some s
  | .nonUtf8 _ => none

/-- Rust `OsStr::is_empty()`.  A non-UTF-8 OS string is never empty (the empty
byte string is valid UTF-8). -/
def OsPath.isEmptyVal : OsPath → Bool
  | .utf8 s => s.data.isEmpty
  | .nonUtf8 _ => false

/-- Rust `Path::join` for a relative, separator-free right operand: appends a
`/` separator unless the base is empty or already ends in one. -/
def joinPath (s t : String) : String :=
  if s.data = [] then t
  else if s.data.getLast? = some '/' then s ++ t
  else s ++ "/" ++ t

/-- `Path::join` lifted to OS paths; joining onto a non-UTF-8 path yields a
non-UTF-8 path. -/
def OsPath.join : OsPath → String → OsPath
  | .utf8 s, t => .utf8 (joinPath s t)
  | .nonUtf8 i, _ => .nonUtf8 i

/-- The captured output of the `java` process
(`std::process::Output`).  `status` is recorded because the process reports
one; the code never reads it. -/
structure ProcOutput where
  status : Int
  stdout : String
  stderr : String
deriving DecidableEq, Repr

/-- One filesystem entry visited by the glob search engine, with the
engine-relevant metadata (is it a directory).  The `World` carries these in
the engine's traversal order. -/
structure FsEntry where
  path : String
  isDir : Bool
deriving DecidableEq, Repr

/-- The crate's `Error` enum from src/lib.rs.  `globError` carries an opaque
payload standing for `glob::GlobError`. -/
inductive Error where
  | javaExecution (e : IoError)
  | ioError (e : IoError)
  | badJavaHomePath (p : OsPath)
  | noJavaHomeProperty
  | pathNotUTF8 (p : OsPath)
  | globError (code : Nat)
  | noNativeLibrary
deriving DecidableEq, Repr

/-- The `JavaHome` struct: a located (not necessarily valid) home directory. -/
structure JavaHome where
  path : OsPath
deriving DecidableEq, Repr

instance {ε α : Type} [DecidableEq ε] [DecidableEq α] :
    DecidableEq (Except ε α) := fun a b =>
  match a, b with
  | .ok x, .ok y =>
    if h : x = y then .isTrue (by rw [h])
    else .isFalse (fun hh => h (by injection hh))
  | .error x, .error y =>
    if h : x = y then .isTrue (by rw [h])
    else .isFalse (fun hh => h (by injection hh))
  | .ok _, .error _ => .isFalse (fun hh => by injection hh)
  | .error _, .ok _ => .isFalse (fun hh => by injection hh)

/-- The ambient effects the crate interacts with: the `JAVA_HOME` environment
variable, the filesystem metadata view, the result of launching `java`
(launch error, or its captured output), and the filesystem entries the glob
engine enumerates, in traversal order. -/
structure World where
  java_home_var : Option OsPath
  metadata : OsPath → Except IoError MetaData
  java_output : Except IoError ProcOutput
  fs : List FsEntry

/-- The compile-time platform selecting `NATIVE_LIBRARY_FILENAME`. -/
inductive Platform where
  | windows
  | linux
  | macos
deriving DecidableEq, Repr

/-- `NATIVE_LIBRARY_FILENAME_WIN` -/
def NATIVE_LIBRARY_FILENAME_WIN : String := "jvm.dll"
/-- `NATIVE_LIBRARY_FILENAME_LIN` -/
def NATIVE_LIBRARY_FILENAME_LIN : String := "libjvm.so"
/-- `NATIVE_LIBRARY_FILENAME_MAC` -/
def NATIVE_LIBRARY_FILENAME_MAC : String := "libjli.dylib"

/-- The cfg-selected `NATIVE_LIBRARY_FILENAME` constant, as a function of the
target platform. -/
def NATIVE_LIBRARY_FILENAME : Platform → String
  | .windows => NATIVE_LIBRARY_FILENAME_WIN
  | .linux => NATIVE_LIBRARY_FILENAME_LIN
  | .macos => NATIVE_LIBRARY_FILENAME_MAC

/-! String helpers translated from the Rust std behaviour the code relies on
(`str::lines`, `str::contains`, `str::find`, `str::trim`). -/

/-- Whitespace as trimmed by `str::trim` (restricted to the ASCII whitespace
characters that occur in `java` property output). -/
def isWsChar (c : Char) : Bool :=
  c = ' ' || c = '\t' || c = '\n' || c = '\r'

/-- Rust `str::trim`: strip leading and trailing whitespace. -/
def rustTrim (s : String) : String :=
  ⟨((s.data.dropWhile isWsChar).reverse.dropWhile isWsChar).reverse⟩

/-- Split a character list at every occurrence of `sep`; always returns at
least one (possibly empty) group. -/
def splitOnChar (sep : Char) : List Char → List (List Char)
  | [] => [[]]
  | c :: rest =>
    if c = sep then [] :: splitOnChar sep rest
    else
      match splitOnChar sep rest with
      | [] => [[c]]
      | g :: gs => (c :: g) :: gs

/-- All suffixes of a list, longest first (the list itself down to `[]`). -/
def allSuffixes : List α → List (List α)
  | [] => [[]]
  | a :: as => (a :: as) :: allSuffixes as

/-- Boolean list-prefix test. -/
def isPrefixL : List Char → List Char → Bool
  | [], _ => true
  | _ :: _, [] => false
  | a :: as, b :: bs => a = b && isPrefixL as bs

/-- Rust `str::contains(pat)`: `pat` occurs as a contiguous substring. -/
def strHasSub (s pat : String) : Bool :=
  (allSuffixes s.data).any (fun t => isPrefixL pat.data t)

/-- Strip one trailing carriage return, as `str::lines` does per line. -/
def stripCR (l : List Char) : List Char :=
  if l.getLast? = some '\r' then l.dropLast else l

/-- Rust `str::lines`: split at `\n`; a line terminated by `\n` sheds one
trailing `\r`; a final unterminated line is kept verbatim, and a final line
ending produces no extra empty line. -/
def rustLines (s : String) : List String :=
  if s.data = [] then []
  else
    let groups := splitOnChar '\n' s.data
    if groups.getLast? = some [] then
      (groups.dropLast).map (fun l => ⟨stripCR l⟩)
    else
      (groups.dropLast).map (fun l => ⟨stripCR l⟩) ++ [⟨(groups.getLast?).getD []⟩]

/-! The glob search engine, translated from the `glob` crate (v0.3) as the
code uses it: `Pattern::escape`, pattern tokenization (literal characters,
`?`, `*`, `**` as a whole component, `[...]`/`[!...]` character classes), and
`glob()` evaluation, which matches candidate paths component by component and
restricts matches to directories when the pattern ends in a separator.
Matches are produced in the engine's traversal order, modelled as the order of
`World.fs`. -/

/-- One alternative inside a `[...]` character class: a single character or an
inclusive range. -/
inductive CharSpec where
  | single (c : Char)
  | range (lo hi : Char)
deriving DecidableEq, Repr

/-- Does a character satisfy one class alternative (case-sensitive)? -/
def specMatch (s : CharSpec) (c : Char) : Bool :=
  match s with
  | .single d => c = d
  | .range lo hi => lo ≤ c && c ≤ hi

/-- Does a character satisfy any alternative of a class? -/
def inSpecs (specs : List CharSpec) (c : Char) : Bool :=
  specs.any (fun s => specMatch s c)

/-- One token of a (non-`**`) pattern component. -/
inductive PatTok where
  | lit (c : Char)
  | anyChar
  | anySeq
  | cls (neg : Bool) (specs : List CharSpec)
deriving DecidableEq, Repr

/-- The `glob` crate's `parse_char_specifiers`: `a-b` triples become ranges,
everything else single characters. -/
def parseCharSpecs : List Char → List CharSpec
  | [] => []
  | a :: '-' :: b :: rest => .range a b :: parseCharSpecs rest
  | a :: rest => .single a :: parseCharSpecs rest

/-- Split a character list at the first `]`, returning the part before and
after it, or `none` when there is no `]`. -/
def splitFirstRB : List Char → Option (List Char × List Char)
  | [] => none
  | c :: rest =>
    if c = ']' then some ([], rest)
    else
      match splitFirstRB rest with
      | none => none
      | some (pre, post) => some (c :: pre, post)

/-- Fueled tokenizer for one pattern component, following the `glob` crate's
`Pattern::new`: `?`, `*`, character classes `[...]` (first content character
always included, so `[]]` is the class containing `]`), negated classes
`[!...]`, and an unclosed or malformed `[` parsed as a literal `[`.  One unit
of fuel is spent per consumed leading character, so `fuel = input length`
always suffices. -/
def tokenizeGo : Nat → List Char → List PatTok
  | 0, _ => []
  | fuel + 1, cs =>
    match cs with
    | [] => []
    | c :: rest =>
      if c = '?' then .anyChar :: tokenizeGo fuel rest
      else if c = '*' then .anySeq :: tokenizeGo fuel rest
      else if c = '[' then
        match rest with
        | '!' :: c2 :: rest2 =>
          (match splitFirstRB rest2 with
           | some (pre, post) =>
             .cls true (parseCharSpecs (c2 :: pre)) :: tokenizeGo fuel post
           | none => .lit '[' :: tokenizeGo fuel rest)
        | c2 :: rest2 =>
          if c2 = '!' then .lit '[' :: tokenizeGo fuel rest
          else
            match splitFirstRB rest2 with
            | some (pre, post) =>
              .cls false (parseCharSpecs (c2 :: pre)) :: tokenizeGo fuel post
            | none => .lit '[' :: tokenizeGo fuel rest
        | [] => .lit '[' :: tokenizeGo fuel rest
      else .lit c :: tokenizeGo fuel rest

/-- Tokenize one pattern component. -/
def tokenizeComp (cs : List Char) : List PatTok :=
  tokenizeGo cs.length cs

/-- The four characters `Pattern::escape` wraps in a character class. -/
def isSpecialGlobChar (c : Char) : Bool :=
  c = '?' || c = '*' || c = '[' || c = ']'

/-- `Pattern::escape` at character level: wrap each of `?` `*` `[` `]` in a
singleton character class. -/
def escL : List Char → List Char
  | [] => []
  | c :: rest =>
    if isSpecialGlobChar c then '[' :: c :: ']' :: escL rest
    else c :: escL rest

/-- `glob::Pattern::escape`. -/
def escapeGlob (s : String) : String := ⟨escL s.data⟩

/-- The escaped form of a component, seen after tokenization: each character
becomes a token matching exactly that character. -/
def rigidToks : List Char → List PatTok
  | [] => []
  | c :: rest =>
    (if isSpecialGlobChar c then .cls false [.single c] else .lit c)
      :: rigidToks rest

/-- One component of a parsed pattern: the recursive wildcard `**`, or a
token list. -/
inductive PatComp where
  | recursive
  | toks (ts : List PatTok)
deriving DecidableEq, Repr

/-- Parse one component: exactly `**` is the recursive wildcard. -/
def parseComp (g : List Char) : PatComp :=
  if g = ['*', '*'] then .recursive else .toks (tokenizeComp g)

/-- Parse a whole pattern: split at `/`; a trailing separator (empty last
component) restricts matches to directories, as in `glob()`. -/
def parsePat (cs : List Char) : List PatComp × Bool :=
  let gs := splitOnChar '/' cs
  if gs.getLast? = some [] then ((gs.dropLast).map parseComp, true)
  else (gs.map parseComp, false)

/-- Match a token list against the characters of one path component.  `*`
matches any (possibly empty) character sequence, so the remaining tokens must
match some suffix. -/
def matchToks : List PatTok → List Char → Bool
  | [], ds => ds.isEmpty
  | .lit c :: ts, [] => false
  | .lit c :: ts, d :: ds => c = d && matchToks ts ds
  | .anyChar :: ts, [] => false
  | .anyChar :: ts, _ :: ds => matchToks ts ds
  | .cls _ _ :: ts, [] => false
  | .cls neg specs :: ts, d :: ds =>
    (inSpecs specs d != neg) && matchToks ts ds
  | .anySeq :: ts, ds =>
    (allSuffixes ds).any (fun ds2 => matchToks ts ds2)

/-- Match a parsed pattern against the components of a path.  `**` matches
zero or more whole components, so the rest must match some suffix. -/
def matchComps : List PatComp → List (List Char) → Bool
  | [], q => q.isEmpty
  | .toks ts :: ps, [] => false
  | .toks ts :: ps, c :: q => matchToks ts c && matchComps ps q
  | .recursive :: ps, q =>
    (allSuffixes q).any (fun q2 => matchComps ps q2)

/-- Does a filesystem entry match a pattern string (including the
directories-only restriction of a trailing separator)? -/
def matchesPattern (pat : String) (e : FsEntry) : Bool :=
  let pr := parsePat pat.data
  (!pr.2 || e.isDir) && matchComps pr.1 (splitOnChar '/' e.path.data)

/-- `glob::glob(pat)` over the modelled filesystem: the paths of the matching
entries, in the engine's traversal order.  Mid-enumeration `GlobError`s
(unreadable directories) are not modelled; the engine yields matches only. -/
def globMatches (fs : List FsEntry) (pat : String) : List String :=
  (fs.filter (matchesPattern pat)).map (fun e => e.path)

/-! The home-resolution tier (`JavaHome::find_home`, `find_valid_home`,
`find_active_home`), translated from src/lib.rs lines 79-146. -/

/-- `JavaHome::find_active_home`: run `java -XshowSettings:properties
-version`; on launch failure return `Error::JavaExecution`.  Otherwise scan
the stdout lines chained with the stderr lines for the first line containing
`java.home`, take the text after the first `=` on that line, trim it; if no
such line exists or the line has no `=`, fail with `NoJavaHomeProperty`. -/
def JavaHome.find_active_home (w : World) : Except Error JavaHome :=
  match w.java_output with
  | .error e => .error (.javaExecution e)
  | .ok output =>
    let java_home_raw :=
      (rustLines output.stdout ++ rustLines output.stderr).find?
        (fun line => strHasSub line "java.home")
    let java_home := java_home_raw.map (fun line =>
      (line.data.findIdx? (fun c => c = '=')).map
        (fun i => rustTrim ⟨line.data.drop (i + 1)⟩))
    match java_home.join with
    | some path => .ok ⟨.utf8 path⟩
    | none => .error .noJavaHomeProperty

/-- `JavaHome::find_home`: the environment variable if set and non-empty,
unchecked; otherwise `find_active_home`. -/
def JavaHome.find_home (w : World) : Except Error JavaHome :=
  match w.java_home_var with
  | some v =>
    if v.isEmptyVal then JavaHome.find_active_home w else .ok ⟨v⟩
  | none => JavaHome.find_active_home w

/-- `JavaHome::find_valid_home`: if the variable is set and non-empty, query
metadata on it; a non-`NotFound` metadata error is returned as
`Error::IoError`, an existing directory is returned as the home, and both the
`NotFound` case and the not-a-directory case fall through to
`find_active_home`. -/
def JavaHome.find_valid_home (w : World) : Except Error JavaHome :=
  match w.java_home_var with
  | some v =>
    if v.isEmptyVal then JavaHome.find_active_home w
    else
      match w.metadata v with
      | .error e =>
        if e.kind ≠ .notFound then .error (.ioError e)
        else JavaHome.find_active_home w
      | .ok meta =>
        if meta.is_dir then .ok ⟨v⟩ else JavaHome.find_active_home w
  | none => JavaHome.find_active_home w

/-! The path-location tier (`JavaHome::include`, `native_library`,
`find_file`, `find_folder`), translated from src/lib.rs lines 167-229.
(`include` is a Lean keyword, so the method is named `includeDirs` here.) -/

/-- `JavaHome::include`: query metadata on `home/include`; `NotFound` yields
`Ok(None)`, any other metadata error yields `Error::IoError`, a non-directory
yields `Error::BadJavaHomePath`, and a directory yields the directory itself
followed by the matches of the escaped pattern `<base>/**/*/`. -/
def JavaHome.includeDirs (w : World) (home : JavaHome) :
    Except Error (Option (List String)) :=
  let base := home.path.join "include"
  match w.metadata base with
  | .error e =>
    if e.kind = .notFound then .ok none else .error (.ioError e)
  | .ok meta =>
    if meta.is_dir then
      match base.to_str with
      | none => .error (.pathNotUTF8 base)
      | some bs => .ok (some (bs :: globMatches w.fs (escapeGlob bs ++ "/**/*/")))
    else .error (.badJavaHomePath home.path)

/-- `JavaHome::native_library`: the first match of the escaped pattern
`<home>/**/<NATIVE_LIBRARY_FILENAME>`, or `Error::NoNativeLibrary` when there
is none. -/
def JavaHome.native_library (plat : Platform) (w : World) (home : JavaHome) :
    Except Error String :=
  match home.path.to_str with
  | none => .error (.pathNotUTF8 home.path)
  | some bs =>
    match globMatches w.fs (escapeGlob bs ++ "/**/" ++ NATIVE_LIBRARY_FILENAME plat) with
    | [] => .error .noNativeLibrary
    | p :: _ => .ok p

/-- `JavaHome::find_file`: the first match of the escaped pattern
`<home>/**/<file>`, or `None` when there is none. -/
def JavaHome.find_file (w : World) (home : JavaHome) (file : String) :
    Except Error (Option String) :=
  match home.path.to_str with
  | none => .error (.pathNotUTF8 home.path)
  | some bs =>
    .ok (globMatches w.fs (escapeGlob bs ++ "/**/" ++ escapeGlob file)).head?

/-- `JavaHome::find_folder`: the first match of the escaped pattern
`<home>/**/<folder>/` (directories only), or `None` when there is none. -/
def JavaHome.find_folder (w : World) (home : JavaHome) (folder : String) :
    Except Error (Option String) :=
  match home.path.to_str with
  | none => .error (.pathNotUTF8 home.path)
  | some bs =>
    .ok (globMatches w.fs (escapeGlob bs ++ "/**/" ++ escapeGlob folder ++ "/")).head?

/-! Specification-side predicates, written from the spec's words rather than
from the source, for use in refinement statements: where the spec says a
search finds "the literal name anywhere under home" and "every directory
below `include`", these predicates say exactly that on path components. -/

/-- The `/`-separated components of a path string. -/
def splitPath (s : String) : List (List Char) :=
  splitOnChar '/' s.data

/-- Modelled from the spec: path `p` is the literal name `nm` at some depth
at least one under base `bs` — its components are the components of `bs`,
then any (possibly empty) run of components, then exactly `nm`. -/
def specLiteralHit (bs nm p : String) : Bool :=
  let b := splitPath bs
  let q := splitPath p
  decide (b.length < q.length) && (q.take b.length == b) && (q.getLast? == some nm.data)

/-- Modelled from the spec: path `p` lies strictly below base `bs` (its
component list properly extends that of `bs`). -/
def specUnder (bs p : String) : Bool :=
  let b := splitPath bs
  let q := splitPath p
  decide (b.length < q.length) && (q.take b.length == b)

/-! Concrete worlds instantiating the theorems below. -/

/-- A launch failure, for worlds whose `java` process result is never used. -/
def launchFail : Except IoError ProcOutput := .error ⟨.notFound, 0⟩

/-- A metadata view on which every path is absent. -/
def allAbsent : OsPath → Except IoError MetaData := fun _ => .error ⟨.notFound, 0⟩

/-- JAVA_HOME points at an existing directory. -/
def wEnvDir : World :=
  { java_home_var := some (.utf8 "/opt/jdk"),
    metadata := fun _ => .ok ⟨true⟩,
    java_output := launchFail,
    fs := [] }

/-- JAVA_HOME is set, and every metadata query fails with a permission
error, so any filesystem check would be observable. -/
def wEnvSet : World :=
  { java_home_var := some (.utf8 "/no/such/dir"),
    metadata := fun _ => .error ⟨.permissionDenied, 3⟩,
    java_output := launchFail,
    fs := [] }

/-- The `java` process prints a property listing containing a `java.home`
line. -/
def wProps : World :=
  { java_home_var := none,
    metadata := allAbsent,
    java_output := .ok
      { status := 0,
        stdout := "Property settings:\n    java.home = /opt/jdk17\n    java.class.path =\n",
        stderr := "" },
    fs := [] }

/-- The `java` process exits with a nonzero status but still reports a
`java.home` property on stderr. -/
def wNonzeroExit : World :=
  { java_home_var := none,
    metadata := allAbsent,
    java_output := .ok
      { status := 1,
        stdout := "",
        stderr := "openjdk version\njava.home = /usr/lib/jvm/java-17\n" },
    fs := [] }

/-- The first `java.home` line carries an `=` followed only by whitespace. -/
def wEmptyValue : World :=
  { java_home_var := none,
    metadata := allAbsent,
    java_output := .ok
      { status := 0, stdout := "java.home =  \n", stderr := "" },
    fs := [] }

/-- A home `h` whose `include` directory holds two platform subdirectories
and a header file. -/
def wInclude : World :=
  { java_home_var := none,
    metadata := fun p =>
      if p = .utf8 "h/include" then .ok ⟨true⟩ else .error ⟨.notFound, 0⟩,
    java_output := launchFail,
    fs := [⟨"h", true⟩, ⟨"h/include", true⟩, ⟨"h/include/win32", true⟩,
      ⟨"h/include/linux", true⟩, ⟨"h/include/jni.h", false⟩] }

/-- A home containing a directory (not a file) named `libjvm.so`. -/
def wDirNamedLib : World :=
  { java_home_var := none,
    metadata := allAbsent,
    java_output := launchFail,
    fs := [⟨"h", true⟩, ⟨"h/libjvm.so", true⟩] }

/-- A home with the native library file nested two levels down. -/
def wLibDeep : World :=
  { java_home_var := none,
    metadata := allAbsent,
    java_output := launchFail,
    fs := [⟨"h", true⟩, ⟨"h/lib", true⟩, ⟨"h/lib/server", true⟩,
      ⟨"h/lib/server/libjvm.so", false⟩] }

/-- A home with a folder literally named `[temp]`, preceded in traversal
order by a decoy `t` that a character-class reading of the brackets would
match first. -/
def wBracketFolder : World :=
  { java_home_var := none,
    metadata := allAbsent,
    java_output := launchFail,
    fs := [⟨"h", true⟩, ⟨"h/t", true⟩, ⟨"h/[temp]", true⟩] }

/-- A home with a file and a folder for the generic searches. -/
def wFindBoth : World :=
  { java_home_var := none,
    metadata := allAbsent,
    java_output := launchFail,
    fs := [⟨"h", true⟩, ⟨"h/docs", true⟩, ⟨"h/docs/readme.txt", false⟩,
      ⟨"h/bin", true⟩] }

/-- A world for non-UTF-8 home paths: every metadata query is absent, and the
filesystem holds an entry so that an (incorrectly) evaluated pattern could
match something. -/
def wNonUtf8 : World :=
  { java_home_var := none,
    metadata := allAbsent,
    java_output := launchFail,
    fs := [⟨"x", true⟩] }

/-! Lemmas about splitting and escaping. -/

theorem splitOnChar_ne_nil (sep : Char) (l : List Char) :
    splitOnChar sep l ≠ [] := by
  cases l with
  | nil => simp [splitOnChar]
  | cons c rest =>
    simp only [splitOnChar]
    split
    · simp
    · split <;> simp

theorem splitOnChar_cons_ne {sep c : Char} {l g : List Char}
    {gs : List (List Char)} (h : ¬c = sep)
    (hs : splitOnChar sep l = g :: gs) :
    splitOnChar sep (c :: l) = (c :: g) :: gs := by
  simp only [splitOnChar, if_neg h, hs]

theorem splitOnChar_cons_sep {sep : Char} (l : List Char) :
    splitOnChar sep (sep :: l) = [] :: splitOnChar sep l := by
  simp [splitOnChar]

theorem splitOnChar_append (sep : Char) (a b : List Char) :
    splitOnChar sep (a ++ sep :: b) = splitOnChar sep a ++ splitOnChar sep b := by
  induction a with
  | nil => simp [splitOnChar]
  | cons c a ih =>
    by_cases hc : c = sep
    · subst hc
      rw [List.cons_append, splitOnChar_cons_sep, splitOnChar_cons_sep, ih,
        List.cons_append]
    · cases hsp : splitOnChar sep a with
      | nil => exact absurd hsp (splitOnChar_ne_nil sep a)
      | cons g gs =>
        have hab : splitOnChar sep (a ++ sep :: b) = g :: (gs ++ splitOnChar sep b) := by
          rw [ih, hsp, List.cons_append]
        rw [List.cons_append, splitOnChar_cons_ne hc hab,
          splitOnChar_cons_ne hc hsp, List.cons_append]

theorem splitOnChar_eq_single {sep : Char} {l : List Char}
    (h : ∀ c ∈ l, ¬c = sep) : splitOnChar sep l = [l] := by
  induction l with
  | nil => rfl
  | cons c l ih =>
    have hc : ¬c = sep := h c (by simp)
    exact splitOnChar_cons_ne hc (ih (fun d hd => h d (by simp [hd])))

theorem escL_eq_nil_iff {l : List Char} : escL l = [] ↔ l = [] := by
  cases l with
  | nil => simp [escL]
  | cons c l =>
    simp only [escL]
    split <;> simp

theorem mem_escL {c : Char} {l : List Char} (h : c ∈ escL l) :
    c = '[' ∨ c = ']' ∨ c ∈ l := by
  induction l with
  | nil => simp [escL] at h
  | cons d l ih =>
    simp only [escL] at h
    split at h
    · simp only [List.mem_cons] at h
      rcases h with h | h | h | h
      · exact Or.inl h
      · exact Or.inr (Or.inr (by simp [h]))
      · exact Or.inr (Or.inl h)
      · rcases ih h with h | h | h
        · exact Or.inl h
        · exact Or.inr (Or.inl h)
        · exact Or.inr (Or.inr (by simp [h]))
    · simp only [List.mem_cons] at h
      rcases h with h | h
      · exact Or.inr (Or.inr (by simp [h]))
      · rcases ih h with h | h | h
        · exact Or.inl h
        · exact Or.inr (Or.inl h)
        · exact Or.inr (Or.inr (by simp [h]))

theorem escL_ne_starstar (l : List Char) : ¬escL l = ['*', '*'] := by
  cases l with
  | nil => simp [escL]
  | cons c l =>
    simp only [escL]
    split
    · intro h
      have h1 : '[' = '*' := by injection h
      exact absurd h1 (by decide)
    · rename_i hs
      intro h
      have h1 : c = '*' := by injection h
      rw [h1] at hs
      exact absurd hs (by decide)

theorem escL_splitOnChar (l : List Char) :
    splitOnChar '/' (escL l) = (splitOnChar '/' l).map escL := by
  induction l with
  | nil => rfl
  | cons c l ih =>
    by_cases hc : c = '/'
    · subst hc
      have hs : escL ('/' :: l) = '/' :: escL l := by
        simp [escL, isSpecialGlobChar]
      rw [hs, splitOnChar_cons_sep, splitOnChar_cons_sep, ih, List.map_cons]
      rfl
    · cases hsp : splitOnChar '/' l with
      | nil => exact absurd hsp (splitOnChar_ne_nil _ _)
      | cons g gs =>
        have hEl : splitOnChar '/' (escL l) = escL g :: gs.map escL := by
          rw [ih, hsp, List.map_cons]
        by_cases hspec : isSpecialGlobChar c = true
        · have hform : escL (c :: l) = '[' :: c :: ']' :: escL l := by
            simp [escL, hspec]
          have e2 : splitOnChar '/' (']' :: escL l) = (']' :: escL g) :: gs.map escL :=
            splitOnChar_cons_ne (by decide) hEl
          have e3 : splitOnChar '/' (c :: ']' :: escL l) = (c :: ']' :: escL g) :: gs.map escL :=
            splitOnChar_cons_ne hc e2
          have e4 : splitOnChar '/' ('[' :: c :: ']' :: escL l) =
              ('[' :: c :: ']' :: escL g) :: gs.map escL :=
            splitOnChar_cons_ne (by decide) e3
          rw [hform, e4, splitOnChar_cons_ne hc hsp, List.map_cons]
          have : escL (c :: g) = '[' :: c :: ']' :: escL g := by
            simp [escL, hspec]
          rw [this]
        · have hform : escL (c :: l) = c :: escL l := by
            simp [escL, hspec]
          rw [hform, splitOnChar_cons_ne hc hEl, splitOnChar_cons_ne hc hsp,
            List.map_cons]
          have : escL (c :: g) = c :: escL g := by
            simp [escL, hspec]
          rw [this]

/-! Lemmas about tokenization of escaped text. -/

theorem tokenizeGo_nil (fuel : Nat) : tokenizeGo fuel [] = [] := by
  cases fuel <;> rfl

theorem tokenize_escL (l : List Char) : ∀ fuel, (escL l).length ≤ fuel →
    tokenizeGo fuel (escL l) = rigidToks l := by
  induction l with
  | nil => intro fuel _; simp [escL, rigidToks, tokenizeGo_nil]
  | cons c l ih =>
    intro fuel hfuel
    by_cases hspec : isSpecialGlobChar c = true
    · have hform : escL (c :: l) = '[' :: c :: ']' :: escL l := by
        simp [escL, hspec]
      rw [hform] at hfuel ⊢
      cases fuel with
      | zero => simp at hfuel
      | succ f =>
        have hl : (escL l).length ≤ f := by
          simp only [List.length_cons] at hfuel
          omega
        have hc4 : c = '?' ∨ c = '*' ∨ c = '[' ∨ c = ']' := by
          simp [isSpecialGlobChar] at hspec
          tauto
        have hrig : rigidToks (c :: l) = .cls false [.single c] :: rigidToks l := by
          simp [rigidToks, hspec]
        rcases hc4 with rfl | rfl | rfl | rfl <;>
          simp [tokenizeGo, splitFirstRB, parseCharSpecs, hrig, ih _ hl]
    · have hform : escL (c :: l) = c :: escL l := by
        simp [escL, hspec]
      rw [hform] at hfuel ⊢
      cases fuel with
      | zero => simp at hfuel
      | succ f =>
        have hl : (escL l).length ≤ f := by
          simp only [List.length_cons] at hfuel
          omega
        have hne : ¬c = '?' ∧ ¬c = '*' ∧ ¬c = '[' ∧ ¬c = ']' := by
          simp [isSpecialGlobChar] at hspec
          tauto
        have hrig : rigidToks (c :: l) = .lit c :: rigidToks l := by
          simp [rigidToks, hspec]
        simp [tokenizeGo, hne.1, hne.2.1, hne.2.2.1, hrig, ih _ hl]

theorem tokenizeComp_escL (l : List Char) :
    tokenizeComp (escL l) = rigidToks l :=
  tokenize_escL l _ le_rfl

theorem parseComp_escL (g : List Char) :
    parseComp (escL g) = .toks (rigidToks g) := by
  rw [parseComp, if_neg (escL_ne_starstar g), tokenizeComp_escL]

/-! Lemmas about the component and token matchers.  The matcher definitions
use overlapping match arms, so their defining equations are restated here as
plain rewrite lemmas. -/

theorem matchToks_nil (ds : List Char) : matchToks [] ds = ds.isEmpty := rfl

theorem matchToks_lit_nil (c : Char) (ts : List PatTok) :
    matchToks (.lit c :: ts) [] = false := rfl

theorem matchToks_lit_cons (c : Char) (ts : List PatTok) (d : Char)
    (ds : List Char) :
    matchToks (.lit c :: ts) (d :: ds) = ((c = d : Bool) && matchToks ts ds) := rfl

theorem matchToks_cls_nil (neg : Bool) (specs : List CharSpec)
    (ts : List PatTok) : matchToks (.cls neg specs :: ts) [] = false := rfl

theorem matchToks_cls_cons (neg : Bool) (specs : List CharSpec)
    (ts : List PatTok) (d : Char) (ds : List Char) :
    matchToks (.cls neg specs :: ts) (d :: ds) =
      ((inSpecs specs d != neg) && matchToks ts ds) := rfl

theorem matchToks_anySeq (ts : List PatTok) (ds : List Char) :
    matchToks (.anySeq :: ts) ds =
      (allSuffixes ds).any (fun ds2 => matchToks ts ds2) := rfl

theorem matchComps_nil (q : List (List Char)) :
    matchComps [] q = q.isEmpty := rfl

theorem matchComps_toks_nil (ts : List PatTok) (ps : List PatComp) :
    matchComps (.toks ts :: ps) [] = false := rfl

theorem matchComps_toks_cons (ts : List PatTok) (ps : List PatComp)
    (c : List Char) (q : List (List Char)) :
    matchComps (.toks ts :: ps) (c :: q) =
      (matchToks ts c && matchComps ps q) := rfl

theorem matchComps_rec (ps : List PatComp) (q : List (List Char)) :
    matchComps (.recursive :: ps) q =
      (allSuffixes q).any (fun q2 => matchComps ps q2) := rfl

theorem mem_allSuffixes {l s : List α} :
    s ∈ allSuffixes l ↔ ∃ pre, l = pre ++ s := by
  induction l with
  | nil =>
    simp only [allSuffixes, List.mem_singleton]
    constructor
    · rintro rfl; exact ⟨[], rfl⟩
    · rintro ⟨pre, hp⟩
      cases pre <;> simp_all
  | cons a l ih =>
    simp only [allSuffixes, List.mem_cons, ih]
    constructor
    · rintro (rfl | ⟨pre, rfl⟩)
      · exact ⟨[], rfl⟩
      · exact ⟨a :: pre, rfl⟩
    · rintro ⟨pre, hp⟩
      cases pre with
      | nil => exact Or.inl (by simpa using hp.symm)
      | cons x xs =>
        rw [List.cons_append] at hp
        injection hp with h1 h2
        exact Or.inr ⟨xs, h2⟩

theorem matchToks_rigid (cs : List Char) :
    ∀ ds, matchToks (rigidToks cs) ds = true ↔ ds = cs := by
  induction cs with
  | nil =>
    intro ds
    rw [rigidToks, matchToks_nil]
    cases ds <;> simp
  | cons c cs ih =>
    intro ds
    cases ds with
    | nil =>
      simp only [rigidToks]
      split
      · rw [matchToks_cls_nil]; simp
      · rw [matchToks_lit_nil]; simp
    | cons d ds =>
      simp only [rigidToks]
      split
      · rw [matchToks_cls_cons]
        simp [inSpecs, specMatch, ih]
      · rw [matchToks_lit_cons]
        simp only [Bool.and_eq_true, decide_eq_true_eq, ih, List.cons.injEq]
        exact ⟨fun ⟨h1, h2⟩ => ⟨h1.symm, h2⟩, fun ⟨h1, h2⟩ => ⟨h1.symm, h2⟩⟩

theorem matchToks_star (ds : List Char) : matchToks [.anySeq] ds = true := by
  rw [matchToks_anySeq]
  simp only [List.any_eq_true]
  exact ⟨[], mem_allSuffixes.mpr ⟨ds, by simp⟩, by rw [matchToks_nil]; rfl⟩

theorem matchComps_nil_iff (q : List (List Char)) :
    matchComps [] q = true ↔ q = [] := by
  rw [matchComps_nil]
  cases q <;> simp

theorem matchComps_rigid_append (comps : List (List Char)) (ps : List PatComp) :
    ∀ q, matchComps ((comps.map fun g => PatComp.toks (rigidToks g)) ++ ps) q = true ↔
      ∃ q2, q = comps ++ q2 ∧ matchComps ps q2 = true := by
  induction comps with
  | nil => intro q; simp
  | cons cmp comps ih =>
    intro q
    cases q with
    | nil =>
      rw [List.map_cons, List.cons_append, matchComps_toks_nil]
      simp
    | cons c q =>
      rw [List.map_cons, List.cons_append, matchComps_toks_cons]
      simp only [Bool.and_eq_true, matchToks_rigid, ih]
      constructor
      · rintro ⟨rfl, q2, rfl, h⟩
        exact ⟨q2, rfl, h⟩
      · rintro ⟨q2, hq, h⟩
        rw [List.cons_append] at hq
        injection hq with h1 h2
        exact ⟨h1, q2, h2, h⟩

theorem matchComps_recursive_iff (ps : List PatComp) (q : List (List Char)) :
    matchComps (.recursive :: ps) q = true ↔
      ∃ pre suf, q = pre ++ suf ∧ matchComps ps suf = true := by
  rw [matchComps_rec]
  simp only [List.any_eq_true]
  constructor
  · rintro ⟨suf, hmem, h⟩
    obtain ⟨pre, rfl⟩ := mem_allSuffixes.mp hmem
    exact ⟨pre, suf, rfl, h⟩
  · rintro ⟨pre, suf, rfl, h⟩
    exact ⟨suf, mem_allSuffixes.mpr ⟨pre, rfl⟩, h⟩

theorem matchComps_singleStar (q : List (List Char)) :
    matchComps [.toks [.anySeq]] q = true ↔ ∃ c, q = [c] := by
  cases q with
  | nil => rw [matchComps_toks_nil]; simp
  | cons c q =>
    rw [matchComps_toks_cons, matchToks_star]
    cases q with
    | nil => simp [matchComps_nil]
    | cons c2 q => simp [matchComps_nil]

theorem matchComps_single_rigid (nm : List Char) (q : List (List Char)) :
    matchComps [.toks (rigidToks nm)] q = true ↔ q = [nm] := by
  have h := matchComps_rigid_append [nm] [] q
  simp only [List.map_cons, List.map_nil, List.cons_append, List.nil_append,
    List.append_nil, matchComps_nil_iff] at h
  rw [h]
  constructor
  · rintro ⟨q2, rfl, rfl⟩; rfl
  · rintro rfl; exact ⟨[], rfl, rfl⟩

theorem matchComps_rec_rigid (nm : List Char) (q : List (List Char)) :
    matchComps [.recursive, .toks (rigidToks nm)] q = true ↔
      ∃ mid, q = mid ++ [nm] := by
  rw [matchComps_recursive_iff]
  constructor
  · rintro ⟨pre, suf, rfl, h⟩
    rw [matchComps_single_rigid] at h
    exact ⟨pre, by rw [h]⟩
  · rintro ⟨mid, rfl⟩
    exact ⟨mid, [nm], rfl, (matchComps_single_rigid nm [nm]).mpr rfl⟩

theorem matchComps_rec_star (q : List (List Char)) :
    matchComps [.recursive, .toks [.anySeq]] q = true ↔ q ≠ [] := by
  rw [matchComps_recursive_iff]
  constructor
  · rintro ⟨pre, suf, rfl, h⟩
    rw [matchComps_singleStar] at h
    obtain ⟨c, rfl⟩ := h
    simp
  · intro h
    refine ⟨q.dropLast, [q.getLast h], ?_, (matchComps_singleStar _).mpr ⟨_, rfl⟩⟩
    exact (List.dropLast_append_getLast h).symm

/-! Decomposition of the pattern strings the operations construct. -/

theorem bool_eq_of_iff {a b : Bool} (h : a = true ↔ b = true) : a = b := by
  cases a <;> cases b <;> simp_all

theorem escL_no_slash {l : List Char} (h : ∀ c ∈ l, ¬c = '/') :
    ∀ c ∈ escL l, ¬c = '/' := by
  intro c hc
  rcases mem_escL hc with rfl | rfl | hm
  · decide
  · decide
  · exact h c hm

theorem pat_split_search (bs nm : String) (hn : ∀ c ∈ nm.data, ¬c = '/') :
    splitOnChar '/' (escapeGlob bs ++ "/**/" ++ escapeGlob nm).data =
      (splitPath bs).map escL ++ [['*', '*'], escL nm.data] := by
  have hdata : (escapeGlob bs ++ "/**/" ++ escapeGlob nm).data
      = escL bs.data ++ '/' :: (['*', '*'] ++ '/' :: escL nm.data) := by
    rw [String.data_append, String.data_append]
    simp [escapeGlob]
  rw [hdata, splitOnChar_append, splitOnChar_append,
    splitOnChar_eq_single (l := ['*', '*']) (by decide),
    splitOnChar_eq_single (escL_no_slash hn), escL_splitOnChar]
  simp [splitPath]

theorem pat_split_search_dir (bs nm : String) (hn : ∀ c ∈ nm.data, ¬c = '/') :
    splitOnChar '/' (escapeGlob bs ++ "/**/" ++ escapeGlob nm ++ "/").data =
      (splitPath bs).map escL ++ [['*', '*'], escL nm.data, []] := by
  have hdata : (escapeGlob bs ++ "/**/" ++ escapeGlob nm ++ "/").data
      = escL bs.data ++ '/' :: (['*', '*'] ++ '/' :: (escL nm.data ++ '/' :: [])) := by
    rw [String.data_append, String.data_append, String.data_append]
    simp [escapeGlob]
  rw [hdata, splitOnChar_append, splitOnChar_append, splitOnChar_append,
    splitOnChar_eq_single (l := ['*', '*']) (by decide),
    splitOnChar_eq_single (escL_no_slash hn), escL_splitOnChar]
  simp [splitPath, splitOnChar]

theorem pat_split_below (bs : String) :
    splitOnChar '/' (escapeGlob bs ++ "/**/*/").data =
      (splitPath bs).map escL ++ [['*', '*'], ['*'], []] := by
  have hdata : (escapeGlob bs ++ "/**/*/").data
      = escL bs.data ++ '/' :: (['*', '*'] ++ '/' :: (['*'] ++ '/' :: [])) := by
    rw [String.data_append]
    simp [escapeGlob]
  rw [hdata, splitOnChar_append, splitOnChar_append, splitOnChar_append,
    splitOnChar_eq_single (l := ['*', '*']) (by decide),
    splitOnChar_eq_single (l := ['*']) (by decide), escL_splitOnChar]
  simp [splitPath, splitOnChar]

theorem parsePat_search (bs nm : String) (hn : ∀ c ∈ nm.data, ¬c = '/')
    (hne : nm.data ≠ []) :
    parsePat (escapeGlob bs ++ "/**/" ++ escapeGlob nm).data =
      ((splitPath bs).map (fun g => PatComp.toks (rigidToks g)) ++
        [.recursive, .toks (rigidToks nm.data)], false) := by
  simp only [parsePat, pat_split_search bs nm hn]
  have hlast : ((splitPath bs).map escL ++ [['*', '*'], escL nm.data]).getLast?
      = some (escL nm.data) := by
    rw [show (splitPath bs).map escL ++ [['*', '*'], escL nm.data]
        = ((splitPath bs).map escL ++ [['*', '*']]) ++ [escL nm.data] by simp,
      List.getLast?_concat]
  rw [hlast]
  rw [if_neg (by simp [escL_eq_nil_iff, hne])]
  simp only [List.map_append, List.map_map, List.map_cons, List.map_nil]
  congr 1
  · congr 1
    · apply List.map_congr_left
      intro g _
      exact parseComp_escL g
    · rw [show parseComp ['*', '*'] = .recursive by simp [parseComp],
        parseComp_escL]

theorem parsePat_search_dir (bs nm : String) (hn : ∀ c ∈ nm.data, ¬c = '/') :
    parsePat (escapeGlob bs ++ "/**/" ++ escapeGlob nm ++ "/").data =
      ((splitPath bs).map (fun g => PatComp.toks (rigidToks g)) ++
        [.recursive, .toks (rigidToks nm.data)], true) := by
  simp only [parsePat, pat_split_search_dir bs nm hn]
  have hform : (splitPath bs).map escL ++ [['*', '*'], escL nm.data, []]
      = ((splitPath bs).map escL ++ [['*', '*'], escL nm.data]) ++ [[]] := by
    simp
  rw [hform, List.getLast?_concat, if_pos rfl, List.dropLast_concat]
  simp only [List.map_append, List.map_map, List.map_cons, List.map_nil]
  congr 2
  · apply List.map_congr_left
    intro g _
    exact parseComp_escL g
  · rw [show parseComp ['*', '*'] = .recursive by simp [parseComp],
      parseComp_escL]

theorem parsePat_below (bs : String) :
    parsePat (escapeGlob bs ++ "/**/*/").data =
      ((splitPath bs).map (fun g => PatComp.toks (rigidToks g)) ++
        [.recursive, .toks [.anySeq]], true) := by
  simp only [parsePat, pat_split_below bs]
  have hform : (splitPath bs).map escL ++ [['*', '*'], ['*'], []]
      = ((splitPath bs).map escL ++ [['*', '*'], ['*']]) ++ [[]] := by
    simp
  rw [hform, List.getLast?_concat, if_pos rfl, List.dropLast_concat]
  simp only [List.map_append, List.map_map, List.map_cons, List.map_nil]
  congr 2
  apply List.map_congr_left
  intro g _
  exact parseComp_escL g

/-! Characterization of the spec-side predicates and of pattern matching for
the constructed patterns. -/

theorem take_len_append_iff {α : Type} (b q : List α) :
    (b.length < q.length ∧ q.take b.length = b) ↔
      ∃ rest, rest ≠ [] ∧ q = b ++ rest := by
  constructor
  · rintro ⟨hlen, htake⟩
    refine ⟨q.drop b.length, ?_, ?_⟩
    · intro hnil
      have hd := congrArg List.length hnil
      simp only [List.length_drop, List.length_nil] at hd
      omega
    · conv_lhs => rw [← List.take_append_drop b.length q]
      rw [htake]
  · rintro ⟨rest, hne, rfl⟩
    have hpos : 0 < rest.length := List.length_pos.mpr hne
    constructor
    · simp only [List.length_append]
      omega
    · exact List.take_left b rest

theorem specUnder_iff (bs p : String) :
    specUnder bs p = true ↔
      ∃ rest, rest ≠ [] ∧ splitPath p = splitPath bs ++ rest := by
  simp only [specUnder, Bool.and_eq_true, decide_eq_true_eq, beq_iff_eq]
  exact take_len_append_iff (splitPath bs) (splitPath p)

theorem specLiteralHit_iff (bs nm p : String) :
    specLiteralHit bs nm p = true ↔
      ∃ mid, splitPath p = splitPath bs ++ (mid ++ [nm.data]) := by
  simp only [specLiteralHit, Bool.and_eq_true, decide_eq_true_eq, beq_iff_eq]
  constructor
  · rintro ⟨⟨hlen, htake⟩, hlast⟩
    obtain ⟨rest, hne, hq⟩ :=
      (take_len_append_iff (splitPath bs) (splitPath p)).mp ⟨hlen, htake⟩
    obtain ⟨ini, a, rfl⟩ : ∃ ini a, rest = ini ++ [a] :=
      ⟨rest.dropLast, rest.getLast hne, (List.dropLast_append_getLast hne).symm⟩
    have hlast2 : (splitPath p).getLast? = some a := by
      rw [hq, ← List.append_assoc, List.getLast?_concat]
    rw [hlast2] at hlast
    have hnm : a = nm.data := by injection hlast
    subst hnm
    exact ⟨ini, hq⟩
  · rintro ⟨mid, hq⟩
    refine ⟨⟨?_, ?_⟩, ?_⟩
    · rw [hq]
      simp only [List.length_append, List.length_cons]
      omega
    · rw [hq]
      exact List.take_left _ _
    · rw [hq, show splitPath bs ++ (mid ++ [nm.data])
          = (splitPath bs ++ mid) ++ [nm.data] by simp,
        List.getLast?_concat]

theorem matchesPattern_search (bs nm : String) (hn : ∀ c ∈ nm.data, ¬c = '/')
    (hne : nm.data ≠ []) (e : FsEntry) :
    matchesPattern (escapeGlob bs ++ "/**/" ++ escapeGlob nm) e =
      specLiteralHit bs nm e.path := by
  apply bool_eq_of_iff
  simp only [matchesPattern, parsePat_search bs nm hn hne, Bool.not_false,
    Bool.true_or, Bool.true_and]
  rw [matchComps_rigid_append, specLiteralHit_iff]
  constructor
  · rintro ⟨q2, hq, h2⟩
    obtain ⟨mid, rfl⟩ := (matchComps_rec_rigid nm.data q2).mp h2
    exact ⟨mid, hq⟩
  · rintro ⟨mid, hq⟩
    exact ⟨mid ++ [nm.data], hq, (matchComps_rec_rigid nm.data _).mpr ⟨mid, rfl⟩⟩

theorem matchesPattern_search_dir (bs nm : String)
    (hn : ∀ c ∈ nm.data, ¬c = '/') (e : FsEntry) :
    matchesPattern (escapeGlob bs ++ "/**/" ++ escapeGlob nm ++ "/") e =
      (e.isDir && specLiteralHit bs nm e.path) := by
  apply bool_eq_of_iff
  simp only [matchesPattern, parsePat_search_dir bs nm hn, Bool.not_true,
    Bool.false_or, Bool.and_eq_true]
  rw [matchComps_rigid_append, specLiteralHit_iff]
  constructor
  · rintro ⟨hdir, q2, hq, h2⟩
    obtain ⟨mid, rfl⟩ := (matchComps_rec_rigid nm.data q2).mp h2
    exact ⟨hdir, mid, hq⟩
  · rintro ⟨hdir, mid, hq⟩
    exact ⟨hdir, mid ++ [nm.data], hq,
      (matchComps_rec_rigid nm.data _).mpr ⟨mid, rfl⟩⟩

theorem matchesPattern_below (bs : String) (e : FsEntry) :
    matchesPattern (escapeGlob bs ++ "/**/*/") e =
      (e.isDir && specUnder bs e.path) := by
  apply bool_eq_of_iff
  simp only [matchesPattern, parsePat_below bs, Bool.not_true,
    Bool.false_or, Bool.and_eq_true]
  rw [matchComps_rigid_append, specUnder_iff]
  constructor
  · rintro ⟨hdir, q2, hq, h2⟩
    exact ⟨hdir, q2, (matchComps_rec_star q2).mp h2, hq⟩
  · rintro ⟨hdir, rest, hne, hq⟩
    exact ⟨hdir, rest, hq, (matchComps_rec_star rest).mpr hne⟩

/-! Operation-level characterizations of the glob searches. -/

theorem native_filename_no_slash (plat : Platform) :
    ∀ c ∈ (NATIVE_LIBRARY_FILENAME plat).data, ¬c = '/' := by
  cases plat <;> decide

theorem native_filename_ne_nil (plat : Platform) :
    (NATIVE_LIBRARY_FILENAME plat).data ≠ [] := by
  cases plat <;> decide

theorem native_filename_escape (plat : Platform) :
    escapeGlob (NATIVE_LIBRARY_FILENAME plat) = NATIVE_LIBRARY_FILENAME plat := by
  cases plat <;> decide

theorem find_file_eq (w : World) (home : JavaHome) (bs nm : String)
    (hhome : home.path = .utf8 bs) (hn : ∀ c ∈ nm.data, ¬c = '/')
    (hne : nm.data ≠ []) :
    JavaHome.find_file w home nm =
      .ok (((w.fs.filter fun e => specLiteralHit bs nm e.path).map
        (fun e => e.path)).head?) := by
  simp only [JavaHome.find_file, hhome, OsPath.to_str]
  rw [globMatches, List.filter_congr (fun e _ => matchesPattern_search bs nm hn hne e)]

theorem find_folder_eq (w : World) (home : JavaHome) (bs nm : String)
    (hhome : home.path = .utf8 bs) (hn : ∀ c ∈ nm.data, ¬c = '/') :
    JavaHome.find_folder w home nm =
      .ok (((w.fs.filter fun e => e.isDir && specLiteralHit bs nm e.path).map
        (fun e => e.path)).head?) := by
  simp only [JavaHome.find_folder, hhome, OsPath.to_str]
  rw [globMatches, List.filter_congr (fun e _ => matchesPattern_search_dir bs nm hn e)]

theorem native_library_eq (plat : Platform) (w : World) (home : JavaHome)
    (bs : String) (hhome : home.path = .utf8 bs) :
    JavaHome.native_library plat w home =
      match (w.fs.filter fun e =>
          specLiteralHit bs (NATIVE_LIBRARY_FILENAME plat) e.path).map
          (fun e => e.path) with
      | [] => .error .noNativeLibrary
      | p :: _ => .ok p := by
  simp only [JavaHome.native_library, hhome, OsPath.to_str]
  rw [show escapeGlob bs ++ "/**/" ++ NATIVE_LIBRARY_FILENAME plat
      = escapeGlob bs ++ "/**/" ++ escapeGlob (NATIVE_LIBRARY_FILENAME plat) by
        rw [native_filename_escape]]
  rw [globMatches, List.filter_congr (fun e _ =>
    matchesPattern_search bs (NATIVE_LIBRARY_FILENAME plat)
      (native_filename_no_slash plat) (native_filename_ne_nil plat) e)]

theorem includeDirs_base (home : JavaHome) (bs : String)
    (hhome : home.path = .utf8 bs) :
    home.path.join "include" = .utf8 (joinPath bs "include") := by
  rw [hhome, OsPath.join]

theorem includeDirs_dir_eq (w : World) (home : JavaHome) (bs : String)
    (m : MetaData) (hhome : home.path = .utf8 bs)
    (hm : w.metadata (.utf8 (joinPath bs "include")) = .ok m)
    (hd : m.is_dir = true) :
    JavaHome.includeDirs w home = .ok (some (joinPath bs "include" ::
      (w.fs.filter fun e => e.isDir && specUnder (joinPath bs "include") e.path).map
        (fun e => e.path))) := by
  have hbase : home.path.join "include" = .utf8 (joinPath bs "include") :=
    includeDirs_base home bs hhome
  simp only [JavaHome.includeDirs, hbase, hm, hd, if_true, OsPath.to_str]
  rw [globMatches, List.filter_congr
    (fun e _ => matchesPattern_below (joinPath bs "include") e)]

/-! Shared facts about `find_active_home`. -/

theorem find_active_home_launch (w : World) (e : IoError)
    (h : w.java_output = .error e) :
    JavaHome.find_active_home w = .error (.javaExecution e) := by
  simp [JavaHome.find_active_home, h]

theorem find_active_home_parse (w : World) (out : ProcOutput)
    (hout : w.java_output = .ok out) :
    ((rustLines out.stdout ++ rustLines out.stderr).find?
        (fun line => strHasSub line "java.home") = none →
      JavaHome.find_active_home w = .error .noJavaHomeProperty) ∧
    (∀ line, (rustLines out.stdout ++ rustLines out.stderr).find?
        (fun line => strHasSub line "java.home") = some line →
      (line.data.findIdx? (fun c => c = '=') = none →
        JavaHome.find_active_home w = .error .noJavaHomeProperty) ∧
      (∀ i, line.data.findIdx? (fun c => c = '=') = some i →
        JavaHome.find_active_home w =
          .ok ⟨.utf8 (rustTrim ⟨line.data.drop (i + 1)⟩)⟩)) := by
  refine ⟨?_, ?_⟩
  · intro hnone
    simp [JavaHome.find_active_home, hout, hnone]
  · intro line hline
    refine ⟨?_, ?_⟩
    · intro hidx
      simp [JavaHome.find_active_home, hout, hline, hidx]
    · intro i hidx
      simp [JavaHome.find_active_home, hout, hline, hidx]

theorem rustTrim_all_ws {l : List Char} (h : ∀ c ∈ l, isWsChar c = true) :
    rustTrim ⟨l⟩ = "" := by
  have h1 : l.dropWhile isWsChar = [] :=
    List.dropWhile_eq_nil_iff.mpr h
  simp only [rustTrim]
  rw [h1]
  rfl

/-! Claim theorems. -/

/-- Claim C1: when JAVA_HOME is set and non-empty, `find_valid_home` proceeds
by cases on the metadata of that path: a `NotFound` metadata failure falls
through to `find_active_home`; any other metadata failure is returned
immediately as `Error::IoError`; an existing directory is returned as the
home; an existing non-directory falls through to `find_active_home`. -/
theorem claim_C1_find_valid_home (w : World) (v : OsPath)
    (hvar : w.java_home_var = some v) (hemp : v.isEmptyVal = false) :
    (∀ e, w.metadata v = .error e → e.kind = .notFound →
      JavaHome.find_valid_home w = JavaHome.find_active_home w) ∧
    (∀ e, w.metadata v = .error e → e.kind ≠ .notFound →
      JavaHome.find_valid_home w = .error (.ioError e)) ∧
    (∀ m, w.metadata v = .ok m → m.is_dir = true →
      JavaHome.find_valid_home w = .ok ⟨v⟩) ∧
    (∀ m, w.metadata v = .ok m → m.is_dir = false →
      JavaHome.find_valid_home w = JavaHome.find_active_home w) := by
  refine ⟨?_, ?_, ?_, ?_⟩ <;> intro x hx hcond <;>
    simp [JavaHome.find_valid_home, hvar, hemp, hx, hcond]

/-- Witness for C1: a set, non-empty JAVA_HOME pointing at a directory is
returned as the home. -/
theorem claim_C1_witness :
    JavaHome.find_valid_home wEnvDir = .ok ⟨.utf8 "/opt/jdk"⟩ :=
  (claim_C1_find_valid_home wEnvDir (.utf8 "/opt/jdk") (by decide)
    (by decide)).2.2.1 ⟨true⟩ (by decide) (by decide)

/-- Claim C2: `find_active_home` scans the combined stdout-then-stderr lines
for the first line containing `java.home`; with no such line, or a first such
line without `=`, it fails with `NoJavaHomeProperty`; otherwise it returns
the text after the first `=` on that line, trimmed of whitespace. -/
theorem claim_C2_find_active_home_parse (w : World) (out : ProcOutput)
    (hout : w.java_output = .ok out) :
    ((rustLines out.stdout ++ rustLines out.stderr).find?
        (fun line => strHasSub line "java.home") = none →
      JavaHome.find_active_home w = .error .noJavaHomeProperty) ∧
    (∀ line, (rustLines out.stdout ++ rustLines out.stderr).find?
        (fun line => strHasSub line "java.home") = some line →
      (line.data.findIdx? (fun c => c = '=') = none →
        JavaHome.find_active_home w = .error .noJavaHomeProperty) ∧
      (∀ i, line.data.findIdx? (fun c => c = '=') = some i →
        JavaHome.find_active_home w =
          .ok ⟨.utf8 (rustTrim ⟨line.data.drop (i + 1)⟩)⟩)) :=
  find_active_home_parse w out hout

/-- Witness for C2: output containing the line `    java.home = /opt/jdk17`
yields the home `/opt/jdk17`. -/
theorem claim_C2_witness :
    JavaHome.find_active_home wProps = .ok ⟨.utf8 "/opt/jdk17"⟩ := by
  have h := ((claim_C2_find_active_home_parse wProps
      { status := 0,
        stdout := "Property settings:\n    java.home = /opt/jdk17\n    java.class.path =\n",
        stderr := "" } (by decide)).2
    "    java.home = /opt/jdk17" (by decide)).2 14 (by decide)
  rw [h]
  decide

/-- Claim C3: for a set, non-empty JAVA_HOME, `find_home` returns exactly the
variable's value with no filesystem check (its result is independent of the
metadata view); when the variable is unset or empty it returns
`find_active_home`'s result. -/
theorem claim_C3_find_home (w : World) :
    (∀ v, w.java_home_var = some v → v.isEmptyVal = false →
      JavaHome.find_home w = .ok ⟨v⟩) ∧
    (∀ m, JavaHome.find_home { w with metadata := m } = JavaHome.find_home w) ∧
    (w.java_home_var = none →
      JavaHome.find_home w = JavaHome.find_active_home w) ∧
    (∀ v, w.java_home_var = some v → v.isEmptyVal = true →
      JavaHome.find_home w = JavaHome.find_active_home w) := by
    refine ⟨?_, ?_, ?_, ?_⟩
    · intro v hvar hemp
      simp [JavaHome.find_home, hvar, hemp]
    · intro m
      cases hvar : w.java_home_var with
      | none => simp [JavaHome.find_home, JavaHome.find_active_home, hvar]
      | some v => simp [JavaHome.find_home, JavaHome.find_active_home, hvar]
    · intro hvar
      simp [JavaHome.find_home, hvar]
    · intro v hvar hemp
      simp [JavaHome.find_home, hvar, hemp]

/-- Witness for C3: a set variable is returned untouched even though every
metadata query on this world fails with a permission error. -/
theorem claim_C3_witness :
    JavaHome.find_home wEnvSet = .ok ⟨.utf8 "/no/such/dir"⟩ :=
  (claim_C3_find_home wEnvSet).1 (.utf8 "/no/such/dir") (by decide) (by decide)

/-- Claim C9 (implicit): `find_active_home` never examines the exit status of
a launched process — its result is invariant under changing the status, a
successfully launched process with nonzero status still yields a home when
the first `java.home` line carries an `=`, and the `JavaExecution` error
arises exactly when the process could not be started. -/
theorem claim_C9_status_ignored (w : World) (out : ProcOutput) (s : Int) :
    (JavaHome.find_active_home { w with java_output := .ok { out with status := s } }
      = JavaHome.find_active_home { w with java_output := .ok out }) ∧
    (∀ e, JavaHome.find_active_home w = .error (.javaExecution e) ↔
      w.java_output = .error e) ∧
    (w.java_output = .ok out → out.status ≠ 0 →
      ∀ line i, (rustLines out.stdout ++ rustLines out.stderr).find?
          (fun line => strHasSub line "java.home") = some line →
        line.data.findIdx? (fun c => c = '=') = some i →
        JavaHome.find_active_home w =
          .ok ⟨.utf8 (rustTrim ⟨line.data.drop (i + 1)⟩)⟩) := by
  refine ⟨rfl, ?_, ?_⟩
  · intro e
    constructor
    · intro h
      cases hout2 : w.java_output with
      | error e2 =>
        rw [find_active_home_launch w e2 hout2] at h
        have h1 : Error.javaExecution e2 = Error.javaExecution e := by injection h
        have h2 : e2 = e := by injection h1
        rw [h2]
      | ok out2 =>
        exfalso
        cases hfind : (rustLines out2.stdout ++ rustLines out2.stderr).find?
            (fun line => strHasSub line "java.home") with
        | none =>
          rw [(find_active_home_parse w out2 hout2).1 hfind] at h
          simp at h
        | some line =>
          cases hidx : line.data.findIdx? (fun c => c = '=') with
          | none =>
            rw [((find_active_home_parse w out2 hout2).2 line hfind).1 hidx] at h
            simp at h
          | some i =>
            rw [((find_active_home_parse w out2 hout2).2 line hfind).2 i hidx] at h
            simp at h
    · intro h
      exact find_active_home_launch w e h
  · intro hout hs line i hline hidx
    exact ((find_active_home_parse w out hout).2 line hline).2 i hidx

/-- Witness for C9: a process exiting with status 1 still yields the home
printed on stderr. -/
theorem claim_C9_witness :
    JavaHome.find_active_home wNonzeroExit = .ok ⟨.utf8 "/usr/lib/jvm/java-17"⟩ := by
  have h := (claim_C9_status_ignored wNonzeroExit
      { status := 1, stdout := "",
        stderr := "openjdk version\njava.home = /usr/lib/jvm/java-17\n" } 1).2.2
    (by decide) (by decide) "java.home = /usr/lib/jvm/java-17" 10 (by decide) (by decide)
  rw [h]
  decide

/-- Claim C10 (implicit): when the first `java.home` line has its first `=`
followed only by whitespace, `find_active_home` returns success with an empty
path rather than failing with `NoJavaHomeProperty`. -/
theorem claim_C10_empty_value (w : World) (out : ProcOutput) (line : String)
    (i : Nat) (hout : w.java_output = .ok out)
    (hline : (rustLines out.stdout ++ rustLines out.stderr).find?
        (fun line => strHasSub line "java.home") = some line)
    (hidx : line.data.findIdx? (fun c => c = '=') = some i)
    (hws : ∀ c ∈ line.data.drop (i + 1), isWsChar c = true) :
    JavaHome.find_active_home w = .ok ⟨.utf8 ""⟩ ∧
    JavaHome.find_active_home w ≠ .error .noJavaHomeProperty := by
  have h := ((find_active_home_parse w out hout).2 line hline).2 i hidx
  rw [h, rustTrim_all_ws hws]
  exact ⟨rfl, by simp⟩

/-- Witness for C10: the line `java.home =  ` gives an empty home path. -/
theorem claim_C10_witness :
    JavaHome.find_active_home wEmptyValue = .ok ⟨.utf8 ""⟩ :=
  (claim_C10_empty_value wEmptyValue
    { status := 0, stdout := "java.home =  \n", stderr := "" }
    "java.home =  " 10 (by decide) (by decide) (by decide) (by decide)).1

/-- Claim C4: `include` proceeds by cases on the `include` path directly
under home: absent gives a non-error `Ok(None)`; present but not a directory
gives `BadJavaHomePath`; a directory gives the `include` directory itself
followed by every directory strictly below it found by the recursive
wildcard; any other metadata failure is an `IoError`. -/
theorem claim_C4_includeDirs (w : World) (home : JavaHome) (bs : String)
    (hhome : home.path = .utf8 bs) :
    (∀ e, w.metadata (.utf8 (joinPath bs "include")) = .error e →
      (e.kind = .notFound → JavaHome.includeDirs w home = .ok none) ∧
      (e.kind ≠ .notFound → JavaHome.includeDirs w home = .error (.ioError e))) ∧
    (∀ m, w.metadata (.utf8 (joinPath bs "include")) = .ok m →
      (m.is_dir = false →
        JavaHome.includeDirs w home = .error (.badJavaHomePath home.path)) ∧
      (m.is_dir = true →
        JavaHome.includeDirs w home = .ok (some (joinPath bs "include" ::
          (w.fs.filter fun e => e.isDir && specUnder (joinPath bs "include") e.path).map
            (fun e => e.path))))) := by
  have hbase : home.path.join "include" = .utf8 (joinPath bs "include") :=
    includeDirs_base home bs hhome
  refine ⟨?_, ?_⟩
  · intro e he
    refine ⟨fun hk => ?_, fun hk => ?_⟩ <;>
      simp [JavaHome.includeDirs, hbase, he, hk]
  · intro m hm
    refine ⟨fun hd => ?_, fun hd => ?_⟩
    · simp [JavaHome.includeDirs, hbase, hm, hd]
    · simp only [JavaHome.includeDirs, hbase, hm, hd, if_true, OsPath.to_str]
      rw [globMatches, List.filter_congr
        (fun e _ => matchesPattern_below (joinPath bs "include") e)]

/-- Witness for C4: an `include` directory holding `win32` and `linux`
subfolders yields exactly the include directory and those two folders (the
non-directory `jni.h` entry is not included). -/
theorem claim_C4_witness :
    JavaHome.includeDirs wInclude ⟨.utf8 "h"⟩ =
      .ok (some ["h/include", "h/include/win32", "h/include/linux"]) := by
  have h := ((claim_C4_includeDirs wInclude ⟨.utf8 "h"⟩ "h" rfl).2 ⟨true⟩
    (by decide)).2 rfl
  rw [h]
  decide

/-- Claim C5 (amended): `native_library` fails with `NoNativeLibrary` exactly
when no filesystem entry — file or directory — named the platform's native
filename lies at any depth under home; otherwise it returns the first match
in the engine's traversal order, and adding a matching entry to any world
makes it succeed. -/
theorem claim_C5_native_library (plat : Platform) (w : World) (home : JavaHome)
    (bs : String) (hhome : home.path = .utf8 bs) :
    (JavaHome.native_library plat w home = .error .noNativeLibrary ↔
      ∀ e ∈ w.fs, ¬specLiteralHit bs (NATIVE_LIBRARY_FILENAME plat) e.path = true) ∧
    (∀ p, ((w.fs.filter fun e =>
        specLiteralHit bs (NATIVE_LIBRARY_FILENAME plat) e.path).map
          (fun e => e.path)).head? = some p →
      JavaHome.native_library plat w home = .ok p) ∧
    (∀ w2 ent, w2.fs = w.fs ++ [ent] →
      specLiteralHit bs (NATIVE_LIBRARY_FILENAME plat) ent.path = true →
      ∃ p, JavaHome.native_library plat w2 home = .ok p) := by
  refine ⟨?_, ?_, ?_⟩
  · constructor
    · intro h e he hspec
      have hmem : e ∈ w.fs.filter (fun e =>
          specLiteralHit bs (NATIVE_LIBRARY_FILENAME plat) e.path) :=
        List.mem_filter.mpr ⟨he, hspec⟩
      cases hf : (w.fs.filter fun e =>
          specLiteralHit bs (NATIVE_LIBRARY_FILENAME plat) e.path) with
      | nil =>
        rw [hf] at hmem
        simp at hmem
      | cons x xs =>
        rw [native_library_eq plat w home bs hhome, hf] at h
        simp at h
    · intro hall
      rw [native_library_eq plat w home bs hhome,
        List.filter_eq_nil_iff.mpr hall]
      rfl
  · intro p hp
    cases hf : (w.fs.filter fun e =>
        specLiteralHit bs (NATIVE_LIBRARY_FILENAME plat) e.path) with
    | nil =>
      rw [hf] at hp
      simp at hp
    | cons x xs =>
      rw [hf] at hp
      simp only [List.map_cons, List.head?_cons] at hp
      have hxp : x.path = p := by injection hp
      rw [native_library_eq plat w home bs hhome, hf]
      simp only [List.map_cons]
      rw [hxp]
  · intro w2 ent hfs hent
    have heq := native_library_eq plat w2 home bs hhome
    rw [hfs, List.filter_append] at heq
    cases hf : (w.fs.filter fun e =>
        specLiteralHit bs (NATIVE_LIBRARY_FILENAME plat) e.path) with
    | nil =>
      rw [hf] at heq
      refine ⟨ent.path, ?_⟩
      rw [heq]
      simp [List.filter_cons, hent]
    | cons x xs =>
      rw [hf] at heq
      refine ⟨x.path, ?_⟩
      rw [heq]
      rfl

/-- Counterexample to C5 as stated: a home whose only entry named `libjvm.so`
is a directory, not a file — `native_library` still succeeds, although no
file with the platform's native filename exists anywhere under home. -/
theorem claim_C5_counterexample :
    JavaHome.native_library .linux wDirNamedLib ⟨.utf8 "h"⟩ = .ok "h/libjvm.so" ∧
    wDirNamedLib.fs.all (fun e => e.isDir) = true := by
  decide

/-- Witness for C5: the native library file nested at depth two is found. -/
theorem claim_C5_witness :
    JavaHome.native_library .linux wLibDeep ⟨.utf8 "h"⟩ =
      .ok "h/lib/server/libjvm.so" :=
  (claim_C5_native_library .linux wLibDeep ⟨.utf8 "h"⟩ "h" rfl).2.1
    "h/lib/server/libjvm.so" (by decide)

/-- Claim C6: in every search operation — `find_folder`, `find_file`,
`native_library` and `include` — the home path and any literal search name
are escaped before pattern construction, so for every home string and every
(separator-free, non-empty) name — glob metacharacters included — the
matches are exactly the entries whose path is literally the components of
the base, any run of components, then exactly the searched name (for
`include`, exactly the directories whose paths literally extend the
components of `home/include`); only the `**` and `*` segments inserted by
the code itself act as pattern syntax. -/
theorem claim_C6_escaping (w : World) (home : JavaHome) (bs nm : String)
    (hhome : home.path = .utf8 bs) (hn : ∀ c ∈ nm.data, ¬c = '/')
    (hne : nm.data ≠ []) :
    JavaHome.find_folder w home nm =
      .ok (((w.fs.filter fun e => e.isDir && specLiteralHit bs nm e.path).map
        (fun e => e.path)).head?) ∧
    JavaHome.find_file w home nm =
      .ok (((w.fs.filter fun e => specLiteralHit bs nm e.path).map
        (fun e => e.path)).head?) ∧
    (∀ plat, JavaHome.native_library plat w home =
      match (w.fs.filter fun e =>
          specLiteralHit bs (NATIVE_LIBRARY_FILENAME plat) e.path).map
          (fun e => e.path) with
      | [] => .error .noNativeLibrary
      | p :: _ => .ok p) ∧
    (∀ m, w.metadata (.utf8 (joinPath bs "include")) = .ok m → m.is_dir = true →
      JavaHome.includeDirs w home = .ok (some (joinPath bs "include" ::
        (w.fs.filter fun e =>
          e.isDir && specUnder (joinPath bs "include") e.path).map
          (fun e => e.path)))) :=
  ⟨find_folder_eq w home bs nm hhome hn,
    find_file_eq w home bs nm hhome hn hne,
    fun plat => native_library_eq plat w home bs hhome,
    fun m hm hd => includeDirs_dir_eq w home bs m hhome hm hd⟩

/-- Witness for C6: a folder literally named `[temp]` is found, skipping the
decoy `t` that a character-class reading of the brackets would match. -/
theorem claim_C6_witness :
    JavaHome.find_folder wBracketFolder ⟨.utf8 "h"⟩ "[temp]" =
      .ok (some "h/[temp]") := by
  have h := (claim_C6_escaping wBracketFolder ⟨.utf8 "h"⟩ "h" "[temp]" rfl
    (by decide) (by decide)).1
  rw [h]
  decide

/-- Claim C7 (amended): for a non-UTF-8 home, `native_library`, `find_file`
and `find_folder` fail with `PathNotUTF8` before evaluating any pattern
(their results do not depend on the filesystem); `include`, however, queries
metadata on `home/include` first, and returns `Ok(None)`, `IoError` or
`BadJavaHomePath` from that query — it reports `PathNotUTF8` only when the
metadata query says `home/include` is a directory. -/
theorem claim_C7_non_utf8 (w : World) (home : JavaHome) (idp : Nat)
    (hhome : home.path = .nonUtf8 idp) :
    (∀ plat, JavaHome.native_library plat w home =
      .error (.pathNotUTF8 home.path)) ∧
    (∀ nm, JavaHome.find_file w home nm = .error (.pathNotUTF8 home.path)) ∧
    (∀ nm, JavaHome.find_folder w home nm = .error (.pathNotUTF8 home.path)) ∧
    (∀ e, w.metadata (.nonUtf8 idp) = .error e →
      (e.kind = .notFound → JavaHome.includeDirs w home = .ok none) ∧
      (e.kind ≠ .notFound → JavaHome.includeDirs w home = .error (.ioError e))) ∧
    (∀ m, w.metadata (.nonUtf8 idp) = .ok m →
      (m.is_dir = true →
        JavaHome.includeDirs w home = .error (.pathNotUTF8 (.nonUtf8 idp))) ∧
      (m.is_dir = false →
        JavaHome.includeDirs w home = .error (.badJavaHomePath home.path))) := by
  have hjoin : home.path.join "include" = .nonUtf8 idp := by
    rw [hhome]
    rfl
  refine ⟨?_, ?_, ?_, ?_, ?_⟩
  · intro plat
    simp [JavaHome.native_library, hhome, OsPath.to_str]
  · intro nm
    simp [JavaHome.find_file, hhome, OsPath.to_str]
  · intro nm
    simp [JavaHome.find_folder, hhome, OsPath.to_str]
  · intro e he
    refine ⟨fun hk => ?_, fun hk => ?_⟩ <;>
      simp [JavaHome.includeDirs, hjoin, he, hk]
  · intro m hm
    have hjoin2 : (OsPath.nonUtf8 idp).join "include" = OsPath.nonUtf8 idp := rfl
    refine ⟨fun hd => ?_, fun hd => ?_⟩ <;>
      simp [JavaHome.includeDirs, hhome, hjoin2, hm, hd, OsPath.to_str]

/-- Counterexample to C7 as stated: `include` on a non-UTF-8 home whose
`include` path is absent returns `Ok(None)` — it does not fail with the
`PathNotUTF8` error, and the filesystem metadata was consulted first. -/
theorem claim_C7_counterexample :
    JavaHome.includeDirs wNonUtf8 ⟨.nonUtf8 0⟩ = .ok none := by
  decide

/-- Witness for C7: `find_file` on a non-UTF-8 home fails with `PathNotUTF8`
regardless of the filesystem. -/
theorem claim_C7_witness :
    JavaHome.find_file wNonUtf8 ⟨.nonUtf8 0⟩ "jni.h" =
      .error (.pathNotUTF8 (.nonUtf8 0)) :=
  (claim_C7_non_utf8 wNonUtf8 ⟨.nonUtf8 0⟩ 0 rfl).2.1 "jni.h"

/-- Claim C8: `find_file` and `find_folder` search recursively for the
literal name under home; with no match they return `Ok(None)`, never an
error; `find_folder` only ever returns directory entries; and each of them
returns the first match of its search in traversal order. -/
theorem claim_C8_find_file_folder (w : World) (home : JavaHome) (bs nm : String)
    (hhome : home.path = .utf8 bs) (hn : ∀ c ∈ nm.data, ¬c = '/')
    (hne : nm.data ≠ []) :
    ((∀ e ∈ w.fs, specLiteralHit bs nm e.path = false) →
      JavaHome.find_file w home nm = .ok none) ∧
    ((∀ e ∈ w.fs, (e.isDir && specLiteralHit bs nm e.path) = false) →
      JavaHome.find_folder w home nm = .ok none) ∧
    (∀ p, JavaHome.find_folder w home nm = .ok (some p) →
      ∃ e ∈ w.fs, e.path = p ∧ e.isDir = true ∧ specLiteralHit bs nm e.path = true) ∧
    (∀ p, JavaHome.find_folder w home nm = .ok (some p) →
      ((w.fs.filter fun e => e.isDir && specLiteralHit bs nm e.path).map
        (fun e => e.path)).head? = some p) ∧
    (∀ p, JavaHome.find_file w home nm = .ok (some p) →
      ((w.fs.filter fun e => specLiteralHit bs nm e.path).map
        (fun e => e.path)).head? = some p) := by
  refine ⟨?_, ?_, ?_, ?_, ?_⟩
  · intro hall
    rw [find_file_eq w home bs nm hhome hn hne]
    rw [List.filter_eq_nil_iff.mpr (fun a ha => by simp [hall a ha])]
    rfl
  · intro hall
    rw [find_folder_eq w home bs nm hhome hn]
    rw [List.filter_eq_nil_iff.mpr (fun a ha => by simp [hall a ha])]
    rfl
  · intro p hp
    rw [find_folder_eq w home bs nm hhome hn] at hp
    have hh : ((w.fs.filter fun e => e.isDir && specLiteralHit bs nm e.path).map
        (fun e => e.path)).head? = some p := by
      injection hp
    cases hf : (w.fs.filter fun e => e.isDir && specLiteralHit bs nm e.path) with
    | nil =>
      rw [hf] at hh
      simp at hh
    | cons x xs =>
      rw [hf] at hh
      simp only [List.map_cons, List.head?_cons] at hh
      have hxp : x.path = p := by injection hh
      have hxmem : x ∈ w.fs.filter (fun e =>
          e.isDir && specLiteralHit bs nm e.path) := by
        rw [hf]
        exact List.mem_cons_self x xs
      have hxpred := (List.mem_filter.mp hxmem).2
      simp only [Bool.and_eq_true] at hxpred
      exact ⟨x, (List.mem_filter.mp hxmem).1, hxp, hxpred.1, hxpred.2⟩
  · intro p hp
    rw [find_folder_eq w home bs nm hhome hn] at hp
    injection hp
  · intro p hp
    rw [find_file_eq w home bs nm hhome hn hne] at hp
    injection hp

/-- Witness for C8: a name present nowhere under home yields `Ok(None)`. -/
theorem claim_C8_witness :
    JavaHome.find_file wFindBoth ⟨.utf8 "h"⟩ "nothere.txt" = .ok none :=
  (claim_C8_find_file_folder wFindBoth ⟨.utf8 "h"⟩ "h" "nothere.txt" rfl
    (by decide) (by decide)).1 (by decide)
